import Mathlib

/-! Verification model of the makselll/rate_limiter gateway core.

The definitions below are a shallow embedding of src/limiter.rs,
src/strategy.rs and src/settings.rs:

* machine integers are modelled as `Nat` (u32) and `Int` (i32);
* a Rust `HashMap<String, Bucket>` is modelled as an association list in
  iteration order (the iteration order of a `HashMap` is arbitrary, so the
  theorems quantify over it); lookup is first-match, matching the unique
  keys of a `HashMap`;
* `std::hash::DefaultHasher` implements an algorithm the Rust standard
  library explicitly leaves unspecified, so the 64-bit hash is a parameter
  `hashKey : String → Nat` of every definition that needs it;
* code that can panic (a failed `unwrap`) returns a `RustOutcome`;
* the Redis counter store is a key/value map `Store`; `SET .. EX .. NX`
  and `DECR` are modelled untimed (no TTL expires during one request) and
  as succeeding (pool and transport failures are not exercised by the
  claims settled here);
* the peer address is modelled by the textual form of its IP, which is the
  only part of `SocketAddr` the code reads.
-/

/-- Token bucket descriptor (src/limiter.rs, struct Bucket): capacity and
refill window in seconds. -/
structure Bucket where
  tokens_count : Nat
  add_tokens_every : Nat
  deriving Repr, DecidableEq

/-- Global bucket settings (src/settings.rs, struct BucketSettings). -/
structure BucketSettings where
  tokens_count : Nat
  add_tokens_every : Nat
  deriving Repr, DecidableEq

/-- One per-value bucket entry (src/settings.rs, struct BuckerPerValue). -/
structure BuckerPerValue where
  value : String
  tokens_count : Nat
  add_tokens_every : Nat
  deriving Repr, DecidableEq

/-- Strategy tag from the settings file (src/settings.rs, enum PossibleStrategies). -/
inductive PossibleStrategies where
  | IP
  | URL
  | Header
  deriving Repr, DecidableEq

/-- One limiter block of the settings (src/settings.rs, struct LimiterSettings). -/
structure LimiterSettings where
  strategy : PossibleStrategies
  global_bucket : Option BucketSettings
  buckets_per_value : Option (List BuckerPerValue)
  deriving Repr, DecidableEq

/-- Rate limiter section of the settings (src/settings.rs, struct
RateLimiterSettings); redis_addr is kept for fidelity but unused by the
decision core. -/
structure RateLimiterSettings where
  redis_addr : String
  ip_whitelist : List String
  limiters_settings : List LimiterSettings
  deriving Repr, DecidableEq

/-- Verdict of one limiter on one request (src/limiter.rs, struct
LimitForRequest). Its Ord instance compares requests_to_exceed_limit only. -/
structure LimitForRequest where
  total_limit : Nat
  requests_to_exceed_limit : Int
  is_limit_exceeded : Bool
  deriving Repr, DecidableEq

/-- Counter key plus the bucket governing it (src/limiter.rs, struct
LimitRedisKey). -/
structure LimitRedisKey where
  key : String
  bucket : Bucket
  deriving Repr, DecidableEq

/-- An HTTP header value as held by axum; to_str is none exactly when the
raw bytes are not valid UTF-8, in which case HeaderValue::to_str() errs. -/
structure HeaderValue where
  to_str : Option String
  deriving Repr, DecidableEq

/-- Request snapshot (src/limiter.rs, struct SafeRequest): the parts the
strategies read. Header names are stored lowercased, as axum's HeaderMap
keeps them. -/
structure SafeRequest where
  path : String
  headers : List (String × HeaderValue)
  deriving Repr, DecidableEq

/-- Outcome of Rust code that may panic via a failed unwrap. -/
inductive RustOutcome (α : Type) where
  | panicked
  | ok (val : α)
  deriving Repr, DecidableEq

/-- Counter store contents: Redis keys mapped to integer counters. -/
abbrev Store := List (String × Int)

/-- Current value of a counter key. -/
def storeGet (st : Store) (k : String) : Option Int :=
  st.lookup k

/-- Replace or insert the value at a key. -/
def storeSet (st : Store) (k : String) (v : Int) : Store :=
  (k, v) :: st.filter (fun p => p.fst != k)

/-- Redis SET key value EX ttl NX (src/limiter.rs lines 224-232): set only
when the key is absent; the TTL is not modelled since no time passes during
one request. -/
def redisSetNxEx (st : Store) (k : String) (v : Nat) : Store :=
  match storeGet st k with
  | some _ => st
  | none => storeSet st k (v : Int)

/-- Redis DECR (src/limiter.rs lines 235-239): a missing key is treated as
0, then decremented; returns the post-decrement value. -/
def redisDecr (st : Store) (k : String) : Int × Store :=
  let newVal := (storeGet st k).getD 0 - 1
  (newVal, storeSet st k newVal)

/-- RateLimiterChecker::hash_key (src/limiter.rs lines 244-248) feeds the
string to std's DefaultHasher, whose algorithm the Rust standard library
leaves unspecified; the model therefore takes the hash function as the
parameter hashKey. -/
def hash_key (hashKey : String → Nat) (s : String) : Nat :=
  hashKey s

/-- IPRateLimiterStrategy::get_redis_key (src/limiter.rs lines 264-274):
identity is the textual peer IP; per-value override, else global bucket,
else skip. -/
def IPRateLimiterStrategy.get_redis_key (hashKey : String → Nat) (ip : String)
    (global_bucket : Option Bucket)
    (buckets_per_value : Option (List (String × Bucket))) :
    Option LimitRedisKey :=
  let bucket : Option Bucket :=
    match buckets_per_value with
    | some bucket => (bucket.lookup ip).or global_bucket
    | none => global_bucket
  match bucket with
  | some b => some ⟨"rate_limiter:ip:" ++ toString (hash_key hashKey ip), b⟩
  | none => none

/-- UrlRateLimiterStrategy::get_redis_key (src/limiter.rs lines 279-289):
identity is the request path; per-value override, else global bucket, else
skip. -/
def UrlRateLimiterStrategy.get_redis_key (hashKey : String → Nat)
    (request : SafeRequest) (global_bucket : Option Bucket)
    (buckets_per_value : Option (List (String × Bucket))) :
    Option LimitRedisKey :=
  let uri := request.path
  let bucket : Option Bucket :=
    match buckets_per_value with
    | some bucket => (bucket.lookup uri).or global_bucket
    | none => global_bucket
  match bucket with
  | some b => some ⟨"rate_limiter:url:" ++ toString (hash_key hashKey uri), b⟩
  | none => none

/-- Rust's str::to_lowercase as applied to configured header names
(src/limiter.rs line 300); written over the character list so that the
kernel can evaluate it on concrete strings. -/
def to_lowercase (s : String) : String :=
  String.mk (s.data.map Char.toLower)

/-- One iteration of the Header strategy's scan loop (src/limiter.rs lines
299-307): a matching configured header overwrites the previously found
value (the loop has no break); value.to_str().unwrap() panics when the
header value is not valid UTF-8. -/
def headerScanStep (headers : List (String × HeaderValue))
    (acc : RustOutcome (Option String × Option Bucket))
    (entry : String × Bucket) :
    RustOutcome (Option String × Option Bucket) :=
  match acc with
  | .panicked => .panicked
  | .ok (found_header, found_bucket) =>
    match headers.lookup (to_lowercase entry.fst) with
    | some value =>
      match value.to_str with
      | some s => .ok (some s, some entry.snd)
      | none => .panicked
    | none => .ok (found_header, found_bucket)

/-- HeaderRateLimiterStrategy::get_redis_key (src/limiter.rs lines
294-318): scan the per-value map, then fall back to the Authorization
header when a global bucket exists. Faithful to the source:
found_header.unwrap() runs before found_bucket's question-mark operator, so
a missing identity panics instead of skipping. -/
def HeaderRateLimiterStrategy.get_redis_key (hashKey : String → Nat)
    (request : SafeRequest) (global_bucket : Option Bucket)
    (buckets_per_value : Option (List (String × Bucket))) :
    RustOutcome (Option LimitRedisKey) :=
  let scan : RustOutcome (Option String × Option Bucket) :=
    match buckets_per_value with
    | some bucket => bucket.foldl (headerScanStep request.headers) (.ok (none, none))
    | none => .ok (none, none)
  match scan with
  | .panicked => .panicked
  | .ok (fh, fb) =>
    let afterFallback : RustOutcome (Option String × Option Bucket) :=
      if fh.isNone && global_bucket.isSome then
        match request.headers.lookup "authorization" with
        | some value =>
          match value.to_str with
          | some s => .ok (some s, global_bucket)
          | none => .panicked
        | none => .ok (fh, fb)
      else .ok (fh, fb)
    match afterFallback with
    | .panicked => .panicked
    | .ok (none, _) => .panicked
    | .ok (some _, none) => .ok none
    | .ok (some h, some b) =>
      .ok (some ⟨"rate_limiter:header:" ++ toString (hash_key hashKey h), b⟩)

/-- Strategy variants (src/limiter.rs, enum Strategy); the wrapped unit
structs carry no state, so tags suffice. -/
inductive Strategy where
  | IP
  | Url
  | Header
  deriving Repr, DecidableEq

/-- Strategy dispatch of get_redis_key (src/limiter.rs lines 97-111); the
IP and URL derivations cannot panic, so their results are wrapped in ok. -/
def Strategy.get_redis_key (hashKey : String → Nat) (strategy : Strategy)
    (request : SafeRequest) (ip : String) (global_bucket : Option Bucket)
    (buckets_per_value : Option (List (String × Bucket))) :
    RustOutcome (Option LimitRedisKey) :=
  match strategy with
  | .IP => .ok (IPRateLimiterStrategy.get_redis_key hashKey ip global_bucket buckets_per_value)
  | .Url => .ok (UrlRateLimiterStrategy.get_redis_key hashKey request global_bucket buckets_per_value)
  | .Header => HeaderRateLimiterStrategy.get_redis_key hashKey request global_bucket buckets_per_value

/-- RateLimiterChecker::check_limit (src/limiter.rs lines 217-242): derive
the key or skip, seed the counter if absent, decrement, and build the
verdict with is_limit_exceeded = (count < 0). -/
def check_limit (hashKey : String → Nat) (strategy : Strategy)
    (global_bucket : Option Bucket)
    (buckets_per_value : Option (List (String × Bucket)))
    (request : SafeRequest) (ip : String) (st : Store) :
    RustOutcome (Option LimitForRequest × Store) :=
  match Strategy.get_redis_key hashKey strategy request ip global_bucket buckets_per_value with
  | .panicked => .panicked
  | .ok none => .ok (none, st)
  | .ok (some lk) =>
    let st1 := redisSetNxEx st lk.key lk.bucket.tokens_count
    let p := redisDecr st1 lk.key
    .ok (some ⟨lk.bucket.tokens_count, p.fst, decide (p.fst < 0)⟩, p.snd)

/-- One configured limiter (src/limiter.rs, struct RateLimiter); the pool
handle is modelled as always yielding a connection. -/
structure RateLimiter where
  strategy : Strategy
  global_bucket : Option Bucket
  buckets_per_value : Option (List (String × Bucket))
  deriving Repr, DecidableEq

/-- RateLimiter::check (src/limiter.rs lines 202-209). -/
def RateLimiter.check (hashKey : String → Nat) (l : RateLimiter)
    (request : SafeRequest) (ip : String) (st : Store) :
    RustOutcome (Option LimitForRequest × Store) :=
  check_limit hashKey l.strategy l.global_bucket l.buckets_per_value request ip st

/-- The manager (src/limiter.rs, struct RateLimiterManager): whitelist plus
the two ordered limiter groups. -/
structure RateLimiterManager where
  ip_whitelist : List String
  user_rate_limiters : List RateLimiter
  url_rate_limiters : List RateLimiter
  deriving Repr, DecidableEq

/-- The per-settings loop body of RateLimiterManager::new (src/limiter.rs
lines 131-149): build the buckets, reject a limiter with neither bucket
kind, and route IP and Header strategies to the user group, URL to the url
group, preserving configuration order. -/
def buildLimiters : List LimiterSettings → Except String (List RateLimiter × List RateLimiter)
  | [] => .ok ([], [])
  | s :: rest =>
    let global_bucket := s.global_bucket.map (fun b => Bucket.mk b.tokens_count b.add_tokens_every)
    let buckets_per_value := s.buckets_per_value.map
      (fun bs => bs.map (fun b => (b.value, Bucket.mk b.tokens_count b.add_tokens_every)))
    if buckets_per_value.isNone && global_bucket.isNone then
      .error "No bucket defined for rate limiter"
    else
      match buildLimiters rest with
      | .error e => .error e
      | .ok (users, urls) =>
        match s.strategy with
        | .IP => .ok (⟨.IP, global_bucket, buckets_per_value⟩ :: users, urls)
        | .Header => .ok (⟨.Header, global_bucket, buckets_per_value⟩ :: users, urls)
        | .URL => .ok (users, ⟨.Url, global_bucket, buckets_per_value⟩ :: urls)

/-- RateLimiterManager::new (src/limiter.rs lines 122-157); connection-pool
creation is modelled as succeeding. -/
def RateLimiterManager.new (settings : RateLimiterSettings) :
    Except String RateLimiterManager :=
  match buildLimiters settings.limiters_settings with
  | .error e => .error e
  | .ok (users, urls) => .ok ⟨settings.ip_whitelist, users, urls⟩

/-- The aggregation step of the middleware loop (src/limiter.rs lines
48-57): replace the running lowest verdict only when the new verdict has
strictly fewer remaining tokens (LimitForRequest's Ord compares
requests_to_exceed_limit). -/
def updateLowest (lowest : Option LimitForRequest) (limit : LimitForRequest) :
    Option LimitForRequest :=
  match lowest with
  | some current =>
    if limit.requests_to_exceed_limit < current.requests_to_exceed_limit then some limit
    else some current
  | none => some limit

/-- The inner middleware loop over one group of limiters (src/limiter.rs
lines 46-58). -/
def runGroup (hashKey : String → Nat) (limiters : List RateLimiter)
    (request : SafeRequest) (ip : String) (lowest : Option LimitForRequest)
    (st : Store) : RustOutcome (Option LimitForRequest × Store) :=
  match limiters with
  | [] => .ok (lowest, st)
  | l :: rest =>
    match RateLimiter.check hashKey l request ip st with
    | .panicked => .panicked
    | .ok (none, st') => runGroup hashKey rest request ip lowest st'
    | .ok (some limit, st') => runGroup hashKey rest request ip (updateLowest lowest limit) st'

/-- The per-group short-circuit test (src/limiter.rs lines 60-65). -/
def exceededCheck : Option LimitForRequest → Bool
  | some limit => limit.is_limit_exceeded
  | none => false

/-- Observable outcome of the middleware (src/limiter.rs lines 18-79). -/
inductive MiddlewareResult where
  /-- Peer IP whitelisted: the request is forwarded unchanged and the
  upstream response is returned with no header added. -/
  | whitelisted
  /-- Status 429, body "Rate limit exceeded"; the request is not forwarded. -/
  | rejected
  /-- Forwarded; the upstream response is stamped with
  X-RateLimit-Limit = total and X-RateLimit-Remaining = remaining. -/
  | forwardedWith (total : Nat) (remaining : Int)
  /-- Forwarded; no limiter produced a verdict, so no X-RateLimit header is
  added to the response. -/
  | forwardedPlain
  deriving Repr, DecidableEq

/-- The middleware (src/limiter.rs lines 18-79): whitelist check, then the
identity group (IP and Header limiters) with its short-circuit, then the
URL group with its short-circuit, then forwarding and header stamping.
Body buffering is modelled as already done: the SafeRequest is the input. -/
def middleware (hashKey : String → Nat) (mgr : RateLimiterManager)
    (request : SafeRequest) (ip : String) (st : Store) :
    RustOutcome (MiddlewareResult × Store) :=
  if mgr.ip_whitelist.contains ip then .ok (.whitelisted, st)
  else
    match runGroup hashKey mgr.user_rate_limiters request ip none st with
    | .panicked => .panicked
    | .ok (lowest1, st1) =>
      if exceededCheck lowest1 then .ok (.rejected, st1)
      else
        match runGroup hashKey mgr.url_rate_limiters request ip lowest1 st1 with
        | .panicked => .panicked
        | .ok (lowest2, st2) =>
          if exceededCheck lowest2 then .ok (.rejected, st2)
          else
            match lowest2 with
            | some limit =>
              .ok (.forwardedWith limit.total_limit limit.requests_to_exceed_limit, st2)
            | none => .ok (.forwardedPlain, st2)

/-- The verdicts produced by one group in evaluation order, threading the
store exactly as runGroup does; an observer of the middleware loop. -/
def collectGroup (hashKey : String → Nat) (limiters : List RateLimiter)
    (request : SafeRequest) (ip : String) (st : Store) :
    RustOutcome (List LimitForRequest × Store) :=
  match limiters with
  | [] => .ok ([], st)
  | l :: rest =>
    match RateLimiter.check hashKey l request ip st with
    | .panicked => .panicked
    | .ok (none, st') => collectGroup hashKey rest request ip st'
    | .ok (some limit, st') =>
      match collectGroup hashKey rest request ip st' with
      | .panicked => .panicked
      | .ok (vs, st'') => .ok (limit :: vs, st'')

/-- All verdicts produced for a request, identity group first, then URL
group, threading the store as the middleware does. -/
def allVerdicts (hashKey : String → Nat) (mgr : RateLimiterManager)
    (request : SafeRequest) (ip : String) (st : Store) :
    RustOutcome (List LimitForRequest × Store) :=
  match collectGroup hashKey mgr.user_rate_limiters request ip st with
  | .panicked => .panicked
  | .ok (vs1, st1) =>
    match collectGroup hashKey mgr.url_rate_limiters request ip st1 with
    | .panicked => .panicked
    | .ok (vs2, st2) => .ok (vs1 ++ vs2, st2)

/-- Minimum of a list of integers, none on the empty list. -/
def listMinInt : List Int → Option Int
  | [] => none
  | x :: xs =>
    match listMinInt xs with
    | none => some x
    | some m => some (min x m)

/-- Specification-side tightest verdict: the first verdict in evaluation
order attaining the minimum remaining. -/
def firstTightest (vs : List LimitForRequest) : Option LimitForRequest :=
  match listMinInt (vs.map (fun v => v.requests_to_exceed_limit)) with
  | none => none
  | some m => vs.find? (fun v => v.requests_to_exceed_limit == m)

/-! Helper lemmas about the aggregation of verdicts. -/

theorem listMinInt_cons_eq (x : Int) (xs : List Int) :
    listMinInt (x :: xs) =
      some (match listMinInt xs with | none => x | some m => min x m) := by
  cases h : listMinInt xs <;> simp [listMinInt, h]

theorem listMinInt_eq_none_iff (xs : List Int) : listMinInt xs = none ↔ xs = [] := by
  cases xs with
  | nil => simp [listMinInt]
  | cons x l => rw [listMinInt_cons_eq]; simp

theorem listMinInt_mem (xs : List Int) : ∀ m, listMinInt xs = some m → m ∈ xs := by
  induction xs with
  | nil => intro m h; simp [listMinInt] at h
  | cons x l ih =>
    intro m h
    rw [listMinInt_cons_eq] at h
    simp only [Option.some.injEq] at h
    cases hl : listMinInt l with
    | none => rw [hl] at h; simp at h; simp [h]
    | some m' =>
      rw [hl] at h
      dsimp only at h
      rcases le_or_lt x m' with hx | hx
      · rw [min_eq_left hx] at h; simp [h]
      · rw [min_eq_right hx.le] at h
        subst h
        exact List.mem_cons_of_mem x (ih m' hl)

theorem listMinInt_le (xs : List Int) : ∀ m, listMinInt xs = some m → ∀ x ∈ xs, m ≤ x := by
  induction xs with
  | nil => intro m h; simp [listMinInt] at h
  | cons x l ih =>
    intro m h y hy
    rw [listMinInt_cons_eq] at h
    simp only [Option.some.injEq] at h
    cases hl : listMinInt l with
    | none =>
      rw [hl] at h
      dsimp only at h
      have hle : l = [] := (listMinInt_eq_none_iff l).mp hl
      subst hle
      rcases List.mem_cons.mp hy with hyx | hyl
      · subst hyx; omega
      · simp at hyl
    | some m' =>
      rw [hl] at h
      dsimp only at h
      subst h
      rcases List.mem_cons.mp hy with hyx | hyl
      · subst hyx; exact min_le_left _ _
      · exact le_trans (min_le_right _ _) (ih m' hl y hyl)

theorem firstTightest_cons (x : LimitForRequest) (l : List LimitForRequest) :
    firstTightest (x :: l) =
      match firstTightest l with
      | none => some x
      | some w =>
        if x.requests_to_exceed_limit ≤ w.requests_to_exceed_limit then some x else some w := by
  unfold firstTightest
  rw [List.map_cons, listMinInt_cons_eq]
  cases hml : listMinInt (List.map (fun v => v.requests_to_exceed_limit) l) with
  | none =>
    have hl : l = [] := by
      have hnil := (listMinInt_eq_none_iff _).mp hml
      cases l with
      | nil => rfl
      | cons y ys => simp at hnil
    subst hl
    simp [List.find?]
  | some m =>
    dsimp only
    have hmem := listMinInt_mem _ m hml
    obtain ⟨w0, hw0, hw0eq⟩ := List.mem_map.mp hmem
    have hfind : l.find? (fun v => v.requests_to_exceed_limit == m) ≠ none := by
      intro hnone
      have := List.find?_eq_none.mp hnone w0 hw0
      simp [hw0eq] at this
    cases hf : l.find? (fun v => v.requests_to_exceed_limit == m) with
    | none => exact absurd hf hfind
    | some w =>
      dsimp only
      have hwrem : w.requests_to_exceed_limit = m := by
        have := List.find?_some hf
        simpa using this
      rcases le_or_lt x.requests_to_exceed_limit m with hxm | hxm
      · rw [min_eq_left hxm]
        rw [List.find?_cons_of_pos _ (by simp)]
        simp [hwrem, hxm]
      · rw [min_eq_right hxm.le]
        rw [List.find?_cons_of_neg _ (by simp; omega)]
        rw [hf]
        have : ¬ x.requests_to_exceed_limit ≤ w.requests_to_exceed_limit := by omega
        simp [this]

theorem firstTightest_cons_ne_none (x : LimitForRequest) (l : List LimitForRequest) :
    firstTightest (x :: l) ≠ none := by
  rw [firstTightest_cons]
  cases firstTightest l with
  | none => simp
  | some w =>
    dsimp only
    split <;> simp

theorem firstTightest_eq_none_iff (vs : List LimitForRequest) :
    firstTightest vs = none ↔ vs = [] := by
  cases vs with
  | nil => simp [firstTightest, listMinInt]
  | cons v l =>
    constructor
    · intro h; exact absurd h (firstTightest_cons_ne_none v l)
    · intro h; simp at h

theorem updateLowest_some (a v : LimitForRequest) :
    updateLowest (some a) v =
      if v.requests_to_exceed_limit < a.requests_to_exceed_limit then some v else some a := rfl

theorem foldl_updateLowest_some (vs : List LimitForRequest) :
    ∀ a, vs.foldl updateLowest (some a) = firstTightest (a :: vs) := by
  induction vs with
  | nil =>
    intro a
    rw [firstTightest_cons]
    simp [firstTightest, listMinInt]
  | cons v rest ih =>
    intro a
    rw [List.foldl_cons, updateLowest_some]
    rw [firstTightest_cons, firstTightest_cons]
    by_cases hva : v.requests_to_exceed_limit < a.requests_to_exceed_limit
    · rw [if_pos hva, ih v, firstTightest_cons]
      cases hfr : firstTightest rest with
      | none =>
        dsimp only
        have : ¬ a.requests_to_exceed_limit ≤ v.requests_to_exceed_limit := by omega
        simp [this]
      | some w =>
        dsimp only
        by_cases hvw : v.requests_to_exceed_limit ≤ w.requests_to_exceed_limit
        · rw [if_pos hvw]
          have : ¬ a.requests_to_exceed_limit ≤ v.requests_to_exceed_limit := by omega
          simp [this]
        · rw [if_neg hvw]
          have : ¬ a.requests_to_exceed_limit ≤ w.requests_to_exceed_limit := by omega
          simp [this]
    · rw [if_neg hva, ih a, firstTightest_cons]
      cases hfr : firstTightest rest with
      | none =>
        dsimp only
        have : a.requests_to_exceed_limit ≤ v.requests_to_exceed_limit := by omega
        simp [this]
      | some w =>
        dsimp only
        by_cases hvw : v.requests_to_exceed_limit ≤ w.requests_to_exceed_limit
        · rw [if_pos hvw]
          have : a.requests_to_exceed_limit ≤ v.requests_to_exceed_limit := by omega
          by_cases haw : a.requests_to_exceed_limit ≤ w.requests_to_exceed_limit
          · simp [this, haw]
          · -- a ≤ v ≤ w contradicts ¬(a ≤ w)
            omega
        · rw [if_neg hvw]

theorem foldl_updateLowest_none (vs : List LimitForRequest) :
    vs.foldl updateLowest none = firstTightest vs := by
  cases vs with
  | nil => simp [firstTightest, listMinInt]
  | cons v rest =>
    rw [List.foldl_cons]
    show List.foldl updateLowest (some v) rest = _
    exact foldl_updateLowest_some rest v

theorem foldl_updateLowest_eq_none_iff (vs : List LimitForRequest)
    (lowest : Option LimitForRequest) :
    vs.foldl updateLowest lowest = none ↔ lowest = none ∧ vs = [] := by
  cases lowest with
  | none =>
    rw [foldl_updateLowest_none, firstTightest_eq_none_iff]
    simp
  | some a =>
    rw [foldl_updateLowest_some vs a]
    constructor
    · intro h; exact absurd h (firstTightest_cons_ne_none a vs)
    · rintro ⟨h, -⟩; cases h

theorem runGroup_eq_fold (hashKey : String → Nat) (ls : List RateLimiter)
    (request : SafeRequest) (ip : String) :
    ∀ (lowest : Option LimitForRequest) (st : Store),
    runGroup hashKey ls request ip lowest st =
      match collectGroup hashKey ls request ip st with
      | .panicked => .panicked
      | .ok (vs, st') => .ok (vs.foldl updateLowest lowest, st') := by
  induction ls with
  | nil => intro lowest st; rfl
  | cons l rest ih =>
    intro lowest st
    show (match RateLimiter.check hashKey l request ip st with
      | RustOutcome.panicked => RustOutcome.panicked
      | RustOutcome.ok (none, st') => runGroup hashKey rest request ip lowest st'
      | RustOutcome.ok (some limit, st') =>
          runGroup hashKey rest request ip (updateLowest lowest limit) st') = _
    cases hc : RateLimiter.check hashKey l request ip st with
    | panicked => simp [collectGroup, hc]
    | ok p =>
      obtain ⟨v?, st'⟩ := p
      cases v? with
      | none =>
        dsimp only
        rw [ih lowest st']
        simp only [collectGroup, hc]
      | some v =>
        dsimp only
        rw [ih (updateLowest lowest v) st']
        simp only [collectGroup, hc]
        cases collectGroup hashKey rest request ip st' with
        | panicked => rfl
        | ok q => rfl

theorem check_verdict_wf (hashKey : String → Nat) (l : RateLimiter)
    (request : SafeRequest) (ip : String) (st : Store) (v : LimitForRequest)
    (st' : Store)
    (h : RateLimiter.check hashKey l request ip st = .ok (some v, st')) :
    v.is_limit_exceeded = decide (v.requests_to_exceed_limit < 0) := by
  unfold RateLimiter.check check_limit at h
  cases hk : Strategy.get_redis_key hashKey l.strategy request ip l.global_bucket l.buckets_per_value with
  | panicked => rw [hk] at h; exact absurd h (by simp)
  | ok k? =>
    rw [hk] at h
    cases k? with
    | none => simp at h
    | some lk =>
      simp only [RustOutcome.ok.injEq, Prod.mk.injEq, Option.some.injEq] at h
      obtain ⟨hv, -⟩ := h
      rw [← hv]

theorem collectGroup_wf (hashKey : String → Nat) (ls : List RateLimiter)
    (request : SafeRequest) (ip : String) :
    ∀ (st : Store) (vs : List LimitForRequest) (st' : Store),
    collectGroup hashKey ls request ip st = .ok (vs, st') →
    ∀ v ∈ vs, v.is_limit_exceeded = decide (v.requests_to_exceed_limit < 0) := by
  induction ls with
  | nil =>
    intro st vs st' h v hv
    simp only [collectGroup, RustOutcome.ok.injEq, Prod.mk.injEq] at h
    obtain ⟨hvs, -⟩ := h
    rw [← hvs] at hv
    simp at hv
  | cons l rest ih =>
    intro st vs st' h v hv
    rw [show collectGroup hashKey (l :: rest) request ip st =
      (match RateLimiter.check hashKey l request ip st with
      | .panicked => .panicked
      | .ok (none, st1) => collectGroup hashKey rest request ip st1
      | .ok (some limit, st1) =>
        match collectGroup hashKey rest request ip st1 with
        | .panicked => .panicked
        | .ok (ws, st2) => .ok (limit :: ws, st2)) from rfl] at h
    cases hc : RateLimiter.check hashKey l request ip st with
    | panicked => rw [hc] at h; exact absurd h (by simp)
    | ok p =>
      obtain ⟨v?, st1⟩ := p
      rw [hc] at h
      cases v? with
      | none => exact ih st1 vs st' h v hv
      | some w =>
        dsimp only at h
        cases hrest : collectGroup hashKey rest request ip st1 with
        | panicked => rw [hrest] at h; exact absurd h (by simp)
        | ok q =>
          obtain ⟨ws, st2⟩ := q
          rw [hrest] at h
          dsimp only at h
          simp only [RustOutcome.ok.injEq, Prod.mk.injEq] at h
          obtain ⟨hvs, -⟩ := h
          rw [← hvs] at hv
          rcases List.mem_cons.mp hv with hvw | hvw
          · subst hvw; exact check_verdict_wf hashKey l request ip st v st1 hc
          · exact ih st1 ws st2 hrest v hvw

theorem allVerdicts_wf (hashKey : String → Nat) (mgr : RateLimiterManager)
    (request : SafeRequest) (ip : String) (st : Store)
    (vs : List LimitForRequest) (st' : Store)
    (h : allVerdicts hashKey mgr request ip st = .ok (vs, st')) :
    ∀ v ∈ vs, v.is_limit_exceeded = decide (v.requests_to_exceed_limit < 0) := by
  unfold allVerdicts at h
  cases h1 : collectGroup hashKey mgr.user_rate_limiters request ip st with
  | panicked => rw [h1] at h; exact absurd h (by simp)
  | ok p1 =>
    obtain ⟨vs1, st1⟩ := p1
    rw [h1] at h
    dsimp only at h
    cases h2 : collectGroup hashKey mgr.url_rate_limiters request ip st1 with
    | panicked => rw [h2] at h; exact absurd h (by simp)
    | ok p2 =>
      obtain ⟨vs2, st2⟩ := p2
      rw [h2] at h
      dsimp only at h
      simp only [RustOutcome.ok.injEq, Prod.mk.injEq] at h
      obtain ⟨hvs, -⟩ := h
      intro v hv
      rw [← hvs] at hv
      rcases List.mem_append.mp hv with hm | hm
      · exact collectGroup_wf hashKey mgr.user_rate_limiters request ip st vs1 st1 h1 v hm
      · exact collectGroup_wf hashKey mgr.url_rate_limiters request ip st1 vs2 st2 h2 v hm

theorem middleware_forwardedWith_inv (hashKey : String → Nat)
    (mgr : RateLimiterManager) (request : SafeRequest) (ip : String)
    (st : Store) (t : Nat) (r : Int) (st' : Store)
    (h : middleware hashKey mgr request ip st = .ok (.forwardedWith t r, st')) :
    ∃ vs, allVerdicts hashKey mgr request ip st = .ok (vs, st') ∧
      ∃ limit, vs.foldl updateLowest none = some limit ∧
        limit.total_limit = t ∧ limit.requests_to_exceed_limit = r ∧
        limit.is_limit_exceeded = false := by
  unfold middleware at h
  by_cases hw : mgr.ip_whitelist.contains ip
  · rw [if_pos hw] at h; exact absurd h (by simp)
  · rw [if_neg hw] at h
    rw [runGroup_eq_fold] at h
    cases h1 : collectGroup hashKey mgr.user_rate_limiters request ip st with
    | panicked => rw [h1] at h; exact absurd h (by simp)
    | ok p1 =>
      obtain ⟨vs1, st1⟩ := p1
      rw [h1] at h
      dsimp only at h
      by_cases he1 : exceededCheck (vs1.foldl updateLowest none)
      · rw [if_pos he1] at h; exact absurd h (by simp)
      · rw [if_neg he1] at h
        rw [runGroup_eq_fold] at h
        cases h2 : collectGroup hashKey mgr.url_rate_limiters request ip st1 with
        | panicked => rw [h2] at h; exact absurd h (by simp)
        | ok p2 =>
          obtain ⟨vs2, st2⟩ := p2
          rw [h2] at h
          dsimp only at h
          by_cases he2 : exceededCheck (vs2.foldl updateLowest (vs1.foldl updateLowest none))
          · rw [if_pos he2] at h; exact absurd h (by simp)
          · rw [if_neg he2] at h
            cases hl2 : vs2.foldl updateLowest (vs1.foldl updateLowest none) with
            | none => rw [hl2] at h; exact absurd h (by simp)
            | some limit =>
              rw [hl2] at h
              dsimp only at h
              simp only [RustOutcome.ok.injEq, Prod.mk.injEq,
                MiddlewareResult.forwardedWith.injEq] at h
              obtain ⟨⟨ht, hr⟩, hst⟩ := h
              refine ⟨vs1 ++ vs2, ?_, limit, ?_, ht, hr, ?_⟩
              · unfold allVerdicts
                rw [h1]
                dsimp only
                rw [h2, hst]
              · rw [List.foldl_append, hl2]
              · rw [hl2] at he2
                simpa [exceededCheck] using he2

theorem middleware_forwardedPlain_inv (hashKey : String → Nat)
    (mgr : RateLimiterManager) (request : SafeRequest) (ip : String)
    (st : Store) (st' : Store)
    (h : middleware hashKey mgr request ip st = .ok (.forwardedPlain, st')) :
    allVerdicts hashKey mgr request ip st = .ok ([], st') := by
  unfold middleware at h
  by_cases hw : mgr.ip_whitelist.contains ip
  · rw [if_pos hw] at h; exact absurd h (by simp)
  · rw [if_neg hw] at h
    rw [runGroup_eq_fold] at h
    cases h1 : collectGroup hashKey mgr.user_rate_limiters request ip st with
    | panicked => rw [h1] at h; exact absurd h (by simp)
    | ok p1 =>
      obtain ⟨vs1, st1⟩ := p1
      rw [h1] at h
      dsimp only at h
      by_cases he1 : exceededCheck (vs1.foldl updateLowest none)
      · rw [if_pos he1] at h; exact absurd h (by simp)
      · rw [if_neg he1] at h
        rw [runGroup_eq_fold] at h
        cases h2 : collectGroup hashKey mgr.url_rate_limiters request ip st1 with
        | panicked => rw [h2] at h; exact absurd h (by simp)
        | ok p2 =>
          obtain ⟨vs2, st2⟩ := p2
          rw [h2] at h
          dsimp only at h
          by_cases he2 : exceededCheck (vs2.foldl updateLowest (vs1.foldl updateLowest none))
          · rw [if_pos he2] at h; exact absurd h (by simp)
          · rw [if_neg he2] at h
            cases hl2 : vs2.foldl updateLowest (vs1.foldl updateLowest none) with
            | some limit => rw [hl2] at h; exact absurd h (by simp)
            | none =>
              rw [hl2] at h
              dsimp only at h
              simp only [RustOutcome.ok.injEq, Prod.mk.injEq, true_and] at h
              obtain ⟨-, hst⟩ := h
              have hnone := (foldl_updateLowest_eq_none_iff vs2 (vs1.foldl updateLowest none)).mp hl2
              obtain ⟨hn1, hn2⟩ := hnone
              have hvs1 : vs1 = [] :=
                ((foldl_updateLowest_eq_none_iff vs1 none).mp hn1).2
              unfold allVerdicts
              rw [h1]
              dsimp only
              rw [h2, hvs1, hn2]
              rfl

/-! Helper lemmas about the Header strategy's scan loop. -/

theorem headerScan_no_match (headers : List (String × HeaderValue)) :
    ∀ (l : List (String × Bucket)) (acc : Option String × Option Bucket),
    (∀ p ∈ l, headers.lookup (to_lowercase p.fst) = none) →
    l.foldl (headerScanStep headers) (.ok acc) = .ok acc := by
  intro l
  induction l with
  | nil => intro acc _; rfl
  | cons e rest ih =>
    intro acc hnone
    rw [List.foldl_cons]
    have he : headers.lookup (to_lowercase e.fst) = none := hnone e (List.mem_cons_self e rest)
    show List.foldl (headerScanStep headers) (headerScanStep headers (.ok acc) e) rest = _
    unfold headerScanStep
    obtain ⟨fh, fb⟩ := acc
    rw [he]
    exact ih (fh, fb) (fun p hp => hnone p (List.mem_cons_of_mem e hp))

theorem headerScan_last_match (headers : List (String × HeaderValue)) :
    ∀ (pre post : List (String × Bucket)) (k : String) (b : Bucket)
      (hv : HeaderValue) (s : String),
    headers.lookup (to_lowercase k) = some hv →
    hv.to_str = some s →
    (∀ p ∈ post, headers.lookup (to_lowercase p.fst) = none) →
    (∀ p ∈ pre, ∀ w, headers.lookup (to_lowercase p.fst) = some w → w.to_str.isSome) →
    (pre ++ (k, b) :: post).foldl (headerScanStep headers) (.ok (none, none)) =
      .ok (some s, some b) := by
  have haux : ∀ (pre : List (String × Bucket)) (acc : Option String × Option Bucket),
      (∀ p ∈ pre, ∀ w, headers.lookup (to_lowercase p.fst) = some w → w.to_str.isSome) →
      ∃ acc', pre.foldl (headerScanStep headers) (.ok acc) = .ok acc' := by
    intro pre
    induction pre with
    | nil => intro acc _; exact ⟨acc, rfl⟩
    | cons e rest ih =>
      intro acc hvalid
      rw [List.foldl_cons]
      show ∃ acc', List.foldl (headerScanStep headers) (headerScanStep headers (.ok acc) e) rest = _
      obtain ⟨fh, fb⟩ := acc
      unfold headerScanStep
      cases hl : headers.lookup (to_lowercase e.fst) with
      | none => exact ih (fh, fb) (fun p hp => hvalid p (List.mem_cons_of_mem e hp))
      | some w =>
        have hw := hvalid e (List.mem_cons_self e rest) w hl
        cases hws : w.to_str with
        | none => rw [hws] at hw; simp at hw
        | some s' =>
          dsimp only
          rw [hws]
          exact ih (some s', some e.snd) (fun p hp => hvalid p (List.mem_cons_of_mem e hp))
  intro pre post k b hv s hmatch hstr hpost hpre
  rw [List.foldl_append]
  obtain ⟨acc', hacc⟩ := haux pre (none, none) hpre
  rw [hacc, List.foldl_cons]
  show List.foldl (headerScanStep headers) (headerScanStep headers (.ok acc') (k, b)) post = _
  obtain ⟨fh, fb⟩ := acc'
  unfold headerScanStep
  rw [hmatch]
  dsimp only
  rw [hstr]
  exact headerScan_no_match headers post (some s, some b) hpost

/-! Helper lemma about manager construction. -/

theorem buildLimiters_error (l : List LimiterSettings) (s : LimiterSettings)
    (hmem : s ∈ l) (hgb : s.global_bucket = none)
    (hbpv : s.buckets_per_value = none) :
    ∃ e, buildLimiters l = .error e := by
  induction l with
  | nil => simp at hmem
  | cons hd rest ih =>
    rcases List.mem_cons.mp hmem with hs | hs
    · subst hs
      refine ⟨"No bucket defined for rate limiter", ?_⟩
      unfold buildLimiters
      rw [hgb, hbpv]
      rfl
    · obtain ⟨e, he⟩ := ih hs
      unfold buildLimiters
      by_cases hguard : (hd.buckets_per_value.map
          (fun bs => bs.map (fun b => (b.value, Bucket.mk b.tokens_count b.add_tokens_every)))).isNone &&
          (hd.global_bucket.map (fun b => Bucket.mk b.tokens_count b.add_tokens_every)).isNone
      · exact ⟨"No bucket defined for rate limiter", by rw [if_pos hguard]⟩
      · rw [if_neg hguard, he]
        cases hd.strategy <;> exact ⟨e, rfl⟩

/-! Helper lemmas about the shape of counter keys. -/

theorem ip_key_of_some (hashKey : String → Nat) (ip : String)
    (gb : Option Bucket) (bpv : Option (List (String × Bucket)))
    (k : LimitRedisKey)
    (h : IPRateLimiterStrategy.get_redis_key hashKey ip gb bpv = some k) :
    k.key = "rate_limiter:ip:" ++ toString (hash_key hashKey ip) := by
  unfold IPRateLimiterStrategy.get_redis_key at h
  dsimp only at h
  cases hb : (match bpv with
    | some bucket => (bucket.lookup ip).or gb
    | none => gb) with
  | none => rw [hb] at h; simp at h
  | some b =>
    rw [hb] at h
    simp only [Option.some.injEq] at h
    rw [← h]

theorem url_key_of_some (hashKey : String → Nat) (request : SafeRequest)
    (gb : Option Bucket) (bpv : Option (List (String × Bucket)))
    (k : LimitRedisKey)
    (h : UrlRateLimiterStrategy.get_redis_key hashKey request gb bpv = some k) :
    k.key = "rate_limiter:url:" ++ toString (hash_key hashKey request.path) := by
  unfold UrlRateLimiterStrategy.get_redis_key at h
  dsimp only at h
  cases hb : (match bpv with
    | some bucket => (bucket.lookup request.path).or gb
    | none => gb) with
  | none => rw [hb] at h; simp at h
  | some b =>
    rw [hb] at h
    simp only [Option.some.injEq] at h
    rw [← h]

theorem header_auth_key (hashKey : String → Nat) (v : String) (b : Bucket)
    (k : LimitRedisKey)
    (h : HeaderRateLimiterStrategy.get_redis_key hashKey
        ⟨"/", [("authorization", ⟨some v⟩)]⟩ (some b) none = .ok (some k)) :
    k.key = "rate_limiter:header:" ++ toString (hash_key hashKey v) := by
  have hval : HeaderRateLimiterStrategy.get_redis_key hashKey
      ⟨"/", [("authorization", ⟨some v⟩)]⟩ (some b) none =
      .ok (some ⟨"rate_limiter:header:" ++ toString (hash_key hashKey v), b⟩) := rfl
  rw [hval] at h
  simp only [RustOutcome.ok.injEq, Option.some.injEq] at h
  rw [← h]

/-! Claim theorems. -/

/-- C1: the spec says a Header-strategy limiter with no matching configured
header and no applicable Authorization fallback skips without failing, and
likewise skips on a non-UTF8 matched header value. The code instead panics
(found_header.unwrap() on None, and value.to_str().unwrap() on non-UTF8):
evaluated at a request with no headers under a per-value-only limiter, at a
request whose matched header value is not UTF-8, and at a global-bucket
limiter whose request has no Authorization header, get_redis_key panics
instead of returning the skip value ok none. -/
theorem c1_header_skip_is_actually_panic :
    HeaderRateLimiterStrategy.get_redis_key (fun _ => 0) ⟨"/", []⟩ none
        (some [("X-Api-Key", ⟨4, 60⟩)]) = .panicked ∧
    HeaderRateLimiterStrategy.get_redis_key (fun _ => 0)
        ⟨"/", [("x-api-key", ⟨none⟩)]⟩ none
        (some [("X-Api-Key", ⟨4, 60⟩)]) = .panicked ∧
    HeaderRateLimiterStrategy.get_redis_key (fun _ => 0) ⟨"/", []⟩
        (some ⟨4, 60⟩) none = .panicked :=
  ⟨rfl, rfl, rfl⟩

/-- C3: when, after the identity group (IP and Header limiters), the
tightest verdict so far is exceeded, the middleware answers 429 with body
"Rate limit exceeded" (the rejected outcome), does not forward the request,
and returns the store exactly as the identity group left it, so no
URL-group counter is decremented. -/
theorem c3_identity_group_short_circuit (hashKey : String → Nat)
    (mgr : RateLimiterManager) (request : SafeRequest) (ip : String)
    (st : Store) (l1 : Option LimitForRequest) (st1 : Store)
    (hw : mgr.ip_whitelist.contains ip = false)
    (h1 : runGroup hashKey mgr.user_rate_limiters request ip none st = .ok (l1, st1))
    (he : exceededCheck l1 = true) :
    middleware hashKey mgr request ip st = .ok (.rejected, st1) := by
  unfold middleware
  rw [hw, h1]
  simp [he]

/-- C3 witness: a zero-capacity IP limiter rejects the first request and
the URL limiter's counter is absent from the final store. -/
theorem c3_identity_group_short_circuit_witness :
    exceededCheck (some ⟨0, -1, true⟩) = true ∧
    middleware (fun _ => 0)
        ⟨[], [⟨.IP, some ⟨0, 60⟩, none⟩], [⟨.Url, some ⟨5, 60⟩, none⟩]⟩
        ⟨"/x", []⟩ "9.9.9.9" [] =
      .ok (.rejected, [("rate_limiter:ip:0", -1)]) :=
  ⟨rfl, c3_identity_group_short_circuit (fun _ => 0)
    ⟨[], [⟨.IP, some ⟨0, 60⟩, none⟩], [⟨.Url, some ⟨5, 60⟩, none⟩]⟩
    ⟨"/x", []⟩ "9.9.9.9" [] (some ⟨0, -1, true⟩)
    [("rate_limiter:ip:0", -1)] rfl rfl rfl⟩

/-- C5: for an IP or URL limiter the bucket is the per-value override when
the identity value (peer IP text, request path) is a key of
buckets_per_value; otherwise the global bucket when present; otherwise the
limiter skips: get_redis_key is none and check_limit emits no verdict and
leaves the store untouched. -/
theorem c5_ip_url_bucket_selection (hashKey : String → Nat) (ip : String)
    (request : SafeRequest) (gb : Option Bucket)
    (bpv : Option (List (String × Bucket))) :
    (∀ m b, bpv = some m → m.lookup ip = some b →
      IPRateLimiterStrategy.get_redis_key hashKey ip gb bpv =
        some ⟨"rate_limiter:ip:" ++ toString (hash_key hashKey ip), b⟩) ∧
    (∀ b, (bpv = none ∨ ∃ m, bpv = some m ∧ m.lookup ip = none) → gb = some b →
      IPRateLimiterStrategy.get_redis_key hashKey ip gb bpv =
        some ⟨"rate_limiter:ip:" ++ toString (hash_key hashKey ip), b⟩) ∧
    ((bpv = none ∨ ∃ m, bpv = some m ∧ m.lookup ip = none) → gb = none →
      IPRateLimiterStrategy.get_redis_key hashKey ip gb bpv = none ∧
      ∀ st, check_limit hashKey .IP gb bpv request ip st = .ok (none, st)) ∧
    (∀ m b, bpv = some m → m.lookup request.path = some b →
      UrlRateLimiterStrategy.get_redis_key hashKey request gb bpv =
        some ⟨"rate_limiter:url:" ++ toString (hash_key hashKey request.path), b⟩) ∧
    (∀ b, (bpv = none ∨ ∃ m, bpv = some m ∧ m.lookup request.path = none) → gb = some b →
      UrlRateLimiterStrategy.get_redis_key hashKey request gb bpv =
        some ⟨"rate_limiter:url:" ++ toString (hash_key hashKey request.path), b⟩) ∧
    ((bpv = none ∨ ∃ m, bpv = some m ∧ m.lookup request.path = none) → gb = none →
      UrlRateLimiterStrategy.get_redis_key hashKey request gb bpv = none ∧
      ∀ st, check_limit hashKey .Url gb bpv request ip st = .ok (none, st)) := by
  refine ⟨?_, ?_, ?_, ?_, ?_, ?_⟩
  · intro m b hm hl
    subst hm
    simp [IPRateLimiterStrategy.get_redis_key, hl]
  · intro b hnone hgb
    subst hgb
    rcases hnone with hn | ⟨m, hm, hl⟩
    · subst hn; simp [IPRateLimiterStrategy.get_redis_key]
    · subst hm; simp [IPRateLimiterStrategy.get_redis_key, hl]
  · intro hnone hgb
    subst hgb
    have hkey : IPRateLimiterStrategy.get_redis_key hashKey ip none bpv = none := by
      rcases hnone with hn | ⟨m, hm, hl⟩
      · subst hn; simp [IPRateLimiterStrategy.get_redis_key]
      · subst hm; simp [IPRateLimiterStrategy.get_redis_key, hl]
    refine ⟨hkey, fun st => ?_⟩
    unfold check_limit Strategy.get_redis_key
    rw [hkey]
  · intro m b hm hl
    subst hm
    simp [UrlRateLimiterStrategy.get_redis_key, hl]
  · intro b hnone hgb
    subst hgb
    rcases hnone with hn | ⟨m, hm, hl⟩
    · subst hn; simp [UrlRateLimiterStrategy.get_redis_key]
    · subst hm; simp [UrlRateLimiterStrategy.get_redis_key, hl]
  · intro hnone hgb
    subst hgb
    have hkey : UrlRateLimiterStrategy.get_redis_key hashKey request none bpv = none := by
      rcases hnone with hn | ⟨m, hm, hl⟩
      · subst hn; simp [UrlRateLimiterStrategy.get_redis_key]
      · subst hm; simp [UrlRateLimiterStrategy.get_redis_key, hl]
    refine ⟨hkey, fun st => ?_⟩
    unfold check_limit Strategy.get_redis_key
    rw [hkey]

/-- C5 witness: the per-value override for the peer IP is chosen over the
configured global bucket. -/
theorem c5_ip_url_bucket_selection_witness :
    ([("1.2.3.4", Bucket.mk 2 60)].lookup "1.2.3.4" = some (Bucket.mk 2 60)) ∧
    IPRateLimiterStrategy.get_redis_key (fun _ => 0) "1.2.3.4"
        (some ⟨9, 9⟩) (some [("1.2.3.4", Bucket.mk 2 60)]) =
      some ⟨"rate_limiter:ip:0", Bucket.mk 2 60⟩ :=
  ⟨rfl, (c5_ip_url_bucket_selection (fun _ => 0) "1.2.3.4" ⟨"/", []⟩
    (some ⟨9, 9⟩) (some [("1.2.3.4", Bucket.mk 2 60)])).1
    [("1.2.3.4", Bucket.mk 2 60)] (Bucket.mk 2 60) rfl rfl⟩

/-- C6 (counterexample): the claim says the first matching configured
header wins. With the map iterating [("A", bucket 1), ("B", bucket 2)] and
both headers present (values "x" and "yy", hashed by string length), the
code returns the identity and bucket of the LAST matching entry: the key
hashes "yy" (length 2) and the bucket is bucket 2, not bucket 1 with the
hash of "x" as first-match-wins would give. -/
theorem c6_first_match_counterexample :
    HeaderRateLimiterStrategy.get_redis_key (fun s => s.length)
        ⟨"/", [("a", ⟨some "x"⟩), ("b", ⟨some "yy"⟩)]⟩ none
        (some [("A", ⟨1, 60⟩), ("B", ⟨2, 60⟩)]) =
      .ok (some ⟨"rate_limiter:header:2", ⟨2, 60⟩⟩) ∧
    (RustOutcome.ok (some (LimitRedisKey.mk "rate_limiter:header:2" ⟨2, 60⟩)) ≠
      RustOutcome.ok (some (LimitRedisKey.mk "rate_limiter:header:1" ⟨1, 60⟩))) :=
  ⟨rfl, by decide⟩

/-- C6 (amended): when several configured header names match headers of the
request, the identity value and bucket chosen are those of the last
matching entry in the map's iteration order (each match overwrites the
previous one; the iteration order of the Rust HashMap is arbitrary),
provided every matched header value is valid UTF-8. -/
theorem c6_amended_last_match_wins (hashKey : String → Nat)
    (request : SafeRequest) (gb : Option Bucket)
    (pre post : List (String × Bucket)) (k : String) (b : Bucket)
    (hv : HeaderValue) (s : String)
    (hmatch : request.headers.lookup (to_lowercase k) = some hv)
    (hstr : hv.to_str = some s)
    (hpost : ∀ p ∈ post, request.headers.lookup (to_lowercase p.fst) = none)
    (hpre : ∀ p ∈ pre, ∀ w,
      request.headers.lookup (to_lowercase p.fst) = some w → w.to_str.isSome) :
    HeaderRateLimiterStrategy.get_redis_key hashKey request gb
        (some (pre ++ (k, b) :: post)) =
      .ok (some ⟨"rate_limiter:header:" ++ toString (hash_key hashKey s), b⟩) := by
  unfold HeaderRateLimiterStrategy.get_redis_key
  dsimp only
  rw [headerScan_last_match request.headers pre post k b hv s hmatch hstr hpost hpre]
  rfl

/-- C6 witness: with an earlier matching entry ("A", bucket 1) before
("B", bucket 2), the later match is the one chosen. -/
theorem c6_amended_last_match_wins_witness :
    ([("a", ⟨some "x"⟩), ("b", ⟨some "yy"⟩)] : List (String × HeaderValue)).lookup
        (to_lowercase "B") = some ⟨some "yy"⟩ ∧
    HeaderRateLimiterStrategy.get_redis_key (fun s => s.length)
        ⟨"/", [("a", ⟨some "x"⟩), ("b", ⟨some "yy"⟩)]⟩ none
        (some ([("A", ⟨1, 60⟩)] ++ ("B", ⟨2, 60⟩) :: [])) =
      .ok (some ⟨"rate_limiter:header:" ++ toString (hash_key (fun s => s.length) "yy"), ⟨2, 60⟩⟩) :=
  ⟨rfl, c6_amended_last_match_wins (fun s => s.length)
    ⟨"/", [("a", ⟨some "x"⟩), ("b", ⟨some "yy"⟩)]⟩ none
    [("A", ⟨1, 60⟩)] [] "B" ⟨2, 60⟩ ⟨some "yy"⟩ "yy" rfl rfl
    (by intro p hp; simp at hp)
    (by
      intro p hp w hw
      have hp' := List.mem_singleton.mp hp
      subst hp'
      have hw' : some (HeaderValue.mk (some "x")) = some w := hw
      injection hw' with hww
      rw [← hww]
      rfl)⟩

/-- C7: a settings list containing a limiter with neither a global bucket
nor a per-value bucket map makes RateLimiterManager construction fail with
an error. -/
theorem c7_manager_construction_fails (settings : RateLimiterSettings)
    (h : ∃ s ∈ settings.limiters_settings,
      s.global_bucket = none ∧ s.buckets_per_value = none) :
    ∃ e, RateLimiterManager.new settings = .error e := by
  obtain ⟨s, hmem, hgb, hbpv⟩ := h
  obtain ⟨e, he⟩ := buildLimiters_error settings.limiters_settings s hmem hgb hbpv
  refine ⟨e, ?_⟩
  unfold RateLimiterManager.new
  rw [he]

/-- C7 witness: a single bucket-less IP limiter is rejected. -/
theorem c7_manager_construction_fails_witness :
    (∃ s ∈ [LimiterSettings.mk .IP none none],
      s.global_bucket = none ∧ s.buckets_per_value = none) ∧
    ∃ e, RateLimiterManager.new
        ⟨"127.0.0.1:6379", [], [LimiterSettings.mk .IP none none]⟩ = .error e :=
  ⟨⟨⟨.IP, none, none⟩, by simp, rfl, rfl⟩,
   c7_manager_construction_fails ⟨"127.0.0.1:6379", [], [LimiterSettings.mk .IP none none]⟩
     ⟨⟨.IP, none, none⟩, by simp, rfl, rfl⟩⟩

/-- C8: when the peer IP is whitelisted the middleware forwards the request
unchanged: no limiter runs, the store is returned untouched (no counter key
is read or written), and no X-RateLimit header is added. -/
theorem c8_whitelist_bypass (hashKey : String → Nat)
    (mgr : RateLimiterManager) (request : SafeRequest) (ip : String)
    (st : Store) (hw : mgr.ip_whitelist.contains ip = true) :
    middleware hashKey mgr request ip st = .ok (.whitelisted, st) := by
  unfold middleware
  rw [hw]
  rfl

/-- C8 witness: a whitelisted peer bypasses a configured IP limiter and the
store stays empty. -/
theorem c8_whitelist_bypass_witness :
    (["1.2.3.4"] : List String).contains "1.2.3.4" = true ∧
    middleware (fun _ => 0)
        ⟨["1.2.3.4"], [⟨.IP, some ⟨3, 60⟩, none⟩], []⟩
        ⟨"/x", []⟩ "1.2.3.4" [] = .ok (.whitelisted, []) :=
  ⟨rfl, c8_whitelist_bypass (fun _ => 0)
    ⟨["1.2.3.4"], [⟨.IP, some ⟨3, 60⟩, none⟩], []⟩ ⟨"/x", []⟩ "1.2.3.4" [] rfl⟩

/-- C10: each strategy's counter key is the strategy tag followed by the
hash of the identity string, so two distinct identity values with equal
hashes produce the same counter key (and hence share one counter) under
that strategy. -/
theorem c10_hash_collision_shares_key (hashKey : String → Nat)
    (v1 v2 : String) (hne : v1 ≠ v2) (hh : hashKey v1 = hashKey v2) :
    (∀ gb bpv k1 k2,
      IPRateLimiterStrategy.get_redis_key hashKey v1 gb bpv = some k1 →
      IPRateLimiterStrategy.get_redis_key hashKey v2 gb bpv = some k2 →
      k1.key = k2.key) ∧
    (∀ gb bpv hs k1 k2,
      UrlRateLimiterStrategy.get_redis_key hashKey ⟨v1, hs⟩ gb bpv = some k1 →
      UrlRateLimiterStrategy.get_redis_key hashKey ⟨v2, hs⟩ gb bpv = some k2 →
      k1.key = k2.key) ∧
    (∀ b k1 k2,
      HeaderRateLimiterStrategy.get_redis_key hashKey
          ⟨"/", [("authorization", ⟨some v1⟩)]⟩ (some b) none = .ok (some k1) →
      HeaderRateLimiterStrategy.get_redis_key hashKey
          ⟨"/", [("authorization", ⟨some v2⟩)]⟩ (some b) none = .ok (some k2) →
      k1.key = k2.key) := by
  refine ⟨?_, ?_, ?_⟩
  · intro gb bpv k1 k2 h1 h2
    rw [ip_key_of_some hashKey v1 gb bpv k1 h1,
      ip_key_of_some hashKey v2 gb bpv k2 h2]
    unfold hash_key
    rw [hh]
  · intro gb bpv hs k1 k2 h1 h2
    rw [url_key_of_some hashKey ⟨v1, hs⟩ gb bpv k1 h1,
      url_key_of_some hashKey ⟨v2, hs⟩ gb bpv k2 h2]
    unfold hash_key
    rw [hh]
  · intro b k1 k2 h1 h2
    rw [header_auth_key hashKey v1 b k1 h1, header_auth_key hashKey v2 b k2 h2]
    unfold hash_key
    rw [hh]

/-- C10 witness: under a hash that collides on "a" and "b", both IP
identities map to the same counter key. -/
theorem c10_hash_collision_shares_key_witness :
    ("a" : String) ≠ "b" ∧
    LimitRedisKey.key ⟨"rate_limiter:ip:0", ⟨1, 1⟩⟩ =
      LimitRedisKey.key ⟨"rate_limiter:ip:0", ⟨1, 1⟩⟩ :=
  ⟨by decide,
   (c10_hash_collision_shares_key (fun _ => 0) "a" "b" (by decide) rfl).1
     (some ⟨1, 1⟩) none ⟨"rate_limiter:ip:0", ⟨1, 1⟩⟩ ⟨"rate_limiter:ip:0", ⟨1, 1⟩⟩
     rfl rfl⟩

/-- C2: on an admitted request on which at least one limiter produced a
verdict, the stamped X-RateLimit-Remaining equals the minimum remaining
over all produced verdicts (identity group then URL group, sharing the
store threading of the middleware) and X-RateLimit-Limit is the total of a
verdict attaining that minimum; when no limiter produced a verdict the
middleware forwards without adding any X-RateLimit header (forwardedPlain)
and the verdict list is empty. -/
theorem c2_min_remaining_stamped (hashKey : String → Nat)
    (mgr : RateLimiterManager) (request : SafeRequest) (ip : String)
    (st : Store) :
    (∀ t r st', middleware hashKey mgr request ip st = .ok (.forwardedWith t r, st') →
      ∃ vs, allVerdicts hashKey mgr request ip st = .ok (vs, st') ∧
        listMinInt (vs.map (fun v => v.requests_to_exceed_limit)) = some r ∧
        ∃ v ∈ vs, v.total_limit = t ∧ v.requests_to_exceed_limit = r) ∧
    (∀ st', middleware hashKey mgr request ip st = .ok (.forwardedPlain, st') →
      allVerdicts hashKey mgr request ip st = .ok ([], st')) := by
  constructor
  · intro t r st' h
    obtain ⟨vs, hall, limit, hfold, ht, hr, -⟩ :=
      middleware_forwardedWith_inv hashKey mgr request ip st t r st' h
    rw [foldl_updateLowest_none] at hfold
    unfold firstTightest at hfold
    cases hm : listMinInt (vs.map (fun v => v.requests_to_exceed_limit)) with
    | none => rw [hm] at hfold; exact absurd hfold (by simp)
    | some m =>
      rw [hm] at hfold
      dsimp only at hfold
      have hbeq := List.find?_some hfold
      have hlm : limit.requests_to_exceed_limit = m := by simpa using hbeq
      have hmem := List.mem_of_find?_eq_some hfold
      refine ⟨vs, hall, ?_, limit, hmem, ht, hr⟩
      rw [hm, ← hlm, hr]
  · intro st' h
    exact middleware_forwardedPlain_inv hashKey mgr request ip st st' h

/-- C2 witness: a single IP limiter with capacity 3 on a fresh store stamps
remaining 2, which is the minimum over the one produced verdict. -/
theorem c2_min_remaining_stamped_witness :
    middleware (fun _ => 0) ⟨[], [⟨.IP, some ⟨3, 60⟩, none⟩], []⟩
        ⟨"/x", []⟩ "1.2.3.4" [] =
      .ok (.forwardedWith 3 2, [("rate_limiter:ip:0", 2)]) ∧
    (∃ vs, allVerdicts (fun _ => 0) ⟨[], [⟨.IP, some ⟨3, 60⟩, none⟩], []⟩
        ⟨"/x", []⟩ "1.2.3.4" [] = .ok (vs, [("rate_limiter:ip:0", 2)]) ∧
      listMinInt (vs.map (fun v => v.requests_to_exceed_limit)) = some 2 ∧
      ∃ v ∈ vs, v.total_limit = 3 ∧ v.requests_to_exceed_limit = 2) :=
  ⟨rfl, (c2_min_remaining_stamped (fun _ => 0) ⟨[], [⟨.IP, some ⟨3, 60⟩, none⟩], []⟩
    ⟨"/x", []⟩ "1.2.3.4" []).1 3 2 [("rate_limiter:ip:0", 2)] rfl⟩

/-- C4: the remaining value stamped on an admitted request is non-negative:
every verdict sets exceeded exactly when its post-decrement count is below
zero, and an admitted request's tightest verdict is not exceeded. -/
theorem c4_stamped_remaining_nonneg (hashKey : String → Nat)
    (mgr : RateLimiterManager) (request : SafeRequest) (ip : String)
    (st : Store) (t : Nat) (r : Int) (st' : Store)
    (h : middleware hashKey mgr request ip st = .ok (.forwardedWith t r, st')) :
    0 ≤ r := by
  obtain ⟨vs, hall, limit, hfold, ht, hr, hex⟩ :=
    middleware_forwardedWith_inv hashKey mgr request ip st t r st' h
  rw [foldl_updateLowest_none] at hfold
  unfold firstTightest at hfold
  cases hm : listMinInt (vs.map (fun v => v.requests_to_exceed_limit)) with
  | none => rw [hm] at hfold; exact absurd hfold (by simp)
  | some m =>
    rw [hm] at hfold
    dsimp only at hfold
    have hmem := List.mem_of_find?_eq_some hfold
    have hwf := allVerdicts_wf hashKey mgr request ip st vs st' hall limit hmem
    have hdec : decide (limit.requests_to_exceed_limit < 0) = false := by
      rw [← hwf, hex]
    have hnlt := of_decide_eq_false hdec
    omega

/-- C4 witness: the stamped remaining 2 of the capacity-3 limiter is
non-negative. -/
theorem c4_stamped_remaining_nonneg_witness :
    middleware (fun _ => 0) ⟨[], [⟨.IP, some ⟨3, 60⟩, none⟩], []⟩
        ⟨"/y", []⟩ "5.6.7.8" [] =
      .ok (.forwardedWith 3 2, [("rate_limiter:ip:0", 2)]) ∧
    (0 : Int) ≤ 2 :=
  ⟨rfl, c4_stamped_remaining_nonneg (fun _ => 0)
    ⟨[], [⟨.IP, some ⟨3, 60⟩, none⟩], []⟩ ⟨"/y", []⟩ "5.6.7.8" [] 3 2
    [("rate_limiter:ip:0", 2)] rfl⟩

/-- C9: the running tightest verdict is replaced only when a later verdict
has strictly smaller remaining, so a tie keeps the earlier verdict; on an
admitted request the stamped total and remaining are therefore those of the
first verdict in evaluation order attaining the minimum remaining
(firstTightest). -/
theorem c9_tie_keeps_first (hashKey : String → Nat)
    (mgr : RateLimiterManager) (request : SafeRequest) (ip : String)
    (st : Store) :
    (∀ current w, w.requests_to_exceed_limit = current.requests_to_exceed_limit →
      updateLowest (some current) w = some current) ∧
    (∀ t r st', middleware hashKey mgr request ip st = .ok (.forwardedWith t r, st') →
      ∃ vs, allVerdicts hashKey mgr request ip st = .ok (vs, st') ∧
        ∃ v, firstTightest vs = some v ∧
          v.total_limit = t ∧ v.requests_to_exceed_limit = r) := by
  constructor
  · intro current w hw
    rw [updateLowest_some, if_neg (by omega)]
  · intro t r st' h
    obtain ⟨vs, hall, limit, hfold, ht, hr, -⟩ :=
      middleware_forwardedWith_inv hashKey mgr request ip st t r st' h
    rw [foldl_updateLowest_none] at hfold
    exact ⟨vs, hall, limit, hfold, ht, hr⟩

/-- C9 witness: an IP limiter and a Header limiter with equal capacity both
report remaining 2; the tie is resolved in favour of the IP limiter, which
is evaluated first, and its total 3 is the one stamped. -/
theorem c9_tie_keeps_first_witness :
    middleware (fun _ => 0)
        ⟨[], [⟨.IP, some ⟨3, 60⟩, none⟩, ⟨.Header, some ⟨3, 60⟩, none⟩], []⟩
        ⟨"/x", [("authorization", ⟨some "t"⟩)]⟩ "1.2.3.4" [] =
      .ok (.forwardedWith 3 2, [("rate_limiter:header:0", 2), ("rate_limiter:ip:0", 2)]) ∧
    (∃ vs, allVerdicts (fun _ => 0)
        ⟨[], [⟨.IP, some ⟨3, 60⟩, none⟩, ⟨.Header, some ⟨3, 60⟩, none⟩], []⟩
        ⟨"/x", [("authorization", ⟨some "t"⟩)]⟩ "1.2.3.4" [] =
        .ok (vs, [("rate_limiter:header:0", 2), ("rate_limiter:ip:0", 2)]) ∧
      ∃ v, firstTightest vs = some v ∧
        v.total_limit = 3 ∧ v.requests_to_exceed_limit = 2) :=
  ⟨rfl, (c9_tie_keeps_first (fun _ => 0)
    ⟨[], [⟨.IP, some ⟨3, 60⟩, none⟩, ⟨.Header, some ⟨3, 60⟩, none⟩], []⟩
    ⟨"/x", [("authorization", ⟨some "t"⟩)]⟩ "1.2.3.4" []).2 3 2
    [("rate_limiter:header:0", 2), ("rate_limiter:ip:0", 2)] rfl⟩
